import Mathlib

/-!
Verification of the geocoding client and coordinate normalizer of
`custom_components/xplora_watch/geocoder.py`.

Embedding conventions:
* JSON-like Python values (the trees handled by `floatify_latlng` and
  returned by `response.json()`) are the inductive `JsonValue`.  Mapping
  nodes are association lists in insertion order with string keys (JSON
  object keys are strings); sequences are lists; scalars are strings,
  rationals (Python numbers), booleans and `None`.
* Python exceptions are values of `PyExc`; fallible code returns
  `Except PyExc α`.  `float` values are modelled as rationals; the
  non-finite floats (`inf`, `nan`) and underscore digit separators of
  Python's numeric literals are outside the model, as are `datetime`
  objects (a UTC datetime is identified with its POSIX timestamp).
* The network is an oracle: an async request is a function of the
  `HttpResponse` (status and optionally-parsed JSON body) the server
  sent back.
-/

/-- Arbitrary JSON-like Python value: mapping, sequence or scalar. -/
inductive JsonValue where
  | obj : List (String × JsonValue) → JsonValue
  | arr : List JsonValue → JsonValue
  | str : String → JsonValue
  | num : Rat → JsonValue
  | bool : Bool → JsonValue
  | null : JsonValue
  deriving Repr

/-- Python exceptions that the geocoder module can raise.  The first six
are the module's own `OpenCageGeocodeError` subclasses (`AioHttpError` is
the session-not-active kind); the rest are builtin Python exceptions that
can escape the module's code uncaught. -/
inductive PyExc where
  | invalidInput : JsonValue → PyExc
  | unknown : String → PyExc
  | rateLimit : Int → Rat → PyExc
  | notAuthorized : PyExc
  | forbidden : PyExc
  | aioHttp : String → PyExc
  | typeError : PyExc
  | keyError : PyExc
  | valueError : PyExc
  | unboundLocal : PyExc
  | attributeError : PyExc
  deriving Repr

/-- Whitespace characters stripped by Python's `float()`/`int()` string
conversion. -/
def isPySpace (c : Char) : Bool :=
  c = ' ' || c = '\t' || c = '\n' || c = '\r' || c = '\x0b' || c = '\x0c'

/-- Decimal digit character. -/
def isDigitChar (c : Char) : Bool := '0' ≤ c && c ≤ '9'

/-- Numeric value of a digit character. -/
def charVal (c : Char) : Nat := c.toNat - 48

/-- Character for a decimal digit (0–9). -/
def digitChar (d : Nat) : Char :=
  match d with
  | 0 => '0' | 1 => '1' | 2 => '2' | 3 => '3' | 4 => '4'
  | 5 => '5' | 6 => '6' | 7 => '7' | 8 => '8' | _ => '9'

/-- Value of a big-endian list of digit characters. -/
def natOfBE (l : List Char) : Nat := Nat.ofDigits 10 ((l.map charVal).reverse)

/-- Leading sign of a Python numeric literal. -/
def parseSign : List Char → Bool × List Char
  | '+' :: rest => (false, rest)
  | '-' :: rest => (true, rest)
  | cs => (false, cs)

/-- Python's `float(s)` on a string: optional whitespace, optional sign,
decimal mantissa with optional fraction, optional decimal exponent.
Returns `none` where `float()` raises `ValueError`.  The value
±(ip.fp)·10^e is delivered as a single normalized rational. -/
def pyParseFloat (s : String) : Option Rat :=
  let cs := ((s.data.dropWhile isPySpace).reverse.dropWhile isPySpace).reverse
  let (neg, cs1) := parseSign cs
  let mant := cs1.takeWhile (fun c => !(c = 'e' || c = 'E'))
  let rest := cs1.dropWhile (fun c => !(c = 'e' || c = 'E'))
  let expVal : Option Int :=
    match rest with
    | [] => some 0
    | _ :: ep =>
      let (eneg, eds) := parseSign ep
      if !eds.isEmpty && eds.all isDigitChar then
        some (if eneg then -(natOfBE eds : Int) else (natOfBE eds : Int))
      else none
  match expVal with
  | none => none
  | some e =>
    let ip := mant.takeWhile (fun c => c ≠ '.')
    let restm := mant.dropWhile (fun c => c ≠ '.')
    let fp := match restm with | [] => ([] : List Char) | _ :: t => t
    if !(ip ++ fp).isEmpty && ip.all isDigitChar && fp.all isDigitChar then
      let mantNum : Nat := natOfBE ip * 10 ^ fp.length + natOfBE fp
      let numAbs : Nat := if 0 ≤ e then mantNum * 10 ^ e.toNat else mantNum
      let den : Nat := if 0 ≤ e then 10 ^ fp.length else 10 ^ fp.length * 10 ^ (-e).toNat
      some (mkRat (if neg then -(numAbs : Int) else (numAbs : Int)) den)
    else none

/-- Python's `int(s)` on a string: optional whitespace, optional sign,
decimal digits.  Returns `none` where `int()` raises `ValueError`. -/
def pyParseInt (s : String) : Option Int :=
  let cs := ((s.data.dropWhile isPySpace).reverse.dropWhile isPySpace).reverse
  let (neg, cs1) := parseSign cs
  if !cs1.isEmpty && cs1.all isDigitChar then
    some ((if neg then -1 else 1) * (natOfBE cs1 : Int))
  else none

/-- Source `float_if_float` (geocoder.py lines 257–266): `float()` of the
argument, with `ValueError` caught and the original value returned.  On a
number it returns the number, on a boolean its numeric value (`bool` is an
`int` subclass in Python), on a string the parsed value or — when parsing
fails with `ValueError` — the original string.  On `None`, a sequence or a
mapping, `float()` raises `TypeError`, which the `except ValueError`
clause does not catch, so it propagates. -/
def float_if_float (float_string : JsonValue) : Except PyExc JsonValue :=
  match float_string with
  | .num q => .ok (.num q)
  | .bool b => .ok (.num (if b then 1 else 0))
  | .str s =>
    match pyParseFloat s with
    | some q => .ok (.num q)
    | none => .ok (.str s)
  | _ => .error .typeError

/-- Lexicographic comparison of character lists by code point, as Python
compares `str` values. -/
def charsLe : List Char → List Char → Bool
  | [], _ => true
  | _ :: _, [] => false
  | a :: as, b :: bs =>
    if a.toNat < b.toNat then true
    else if b.toNat < a.toNat then false
    else charsLe as bs

/-- Python `a <= b` on strings. -/
def strLe (a b : String) : Bool := charsLe a.data b.data

/-- String insertion into a sorted list (ascending lexicographic order,
as Python `sorted` on `str` keys). -/
def insertStr (s : String) : List String → List String
  | [] => [s]
  | t :: rest => if strLe s t then s :: t :: rest else t :: insertStr s rest

/-- Insertion sort of strings, modelling Python's `sorted`. -/
def sortStrs : List String → List String
  | [] => []
  | s :: rest => insertStr s (sortStrs rest)

/-- Guard of the coordinate-leaf branch of `floatify_latlng`:
`len(input_value) == 2 and sorted(input_value.keys()) == ['lat', 'lng']`. -/
def isCoordLeaf (fields : List (String × JsonValue)) : Bool :=
  fields.length == 2 && sortStrs (fields.map Prod.fst) == ["lat", "lng"]

/-- Python `d[k]` on a mapping given as an association list:  the value of
the first matching key, or `KeyError`. -/
def fieldsGet (fields : List (String × JsonValue)) (k : String) : Except PyExc JsonValue :=
  match fields.lookup k with
  | some v => .ok v
  | none => .error .keyError

mutual

/-- Source `floatify_latlng` (geocoder.py lines 269–289): recursively walk
a JSON-like tree; a mapping with exactly the two keys `lat`/`lng` becomes
`{lat: float_if_float(v["lat"]), lng: float_if_float(v["lng"])}`; any
other mapping is rebuilt with every value recursively processed; a mutable
sequence is rebuilt element-wise; anything else is returned unchanged. -/
def floatify_latlng : JsonValue → Except PyExc JsonValue
  | .obj fields =>
    if isCoordLeaf fields then do
      let la ← fieldsGet fields "lat"
      let lo ← fieldsGet fields "lng"
      let la' ← float_if_float la
      let lo' ← float_if_float lo
      pure (.obj [("lat", la'), ("lng", lo')])
    else
      (floatifyFields fields).map JsonValue.obj
  | .arr xs => (floatifyList xs).map JsonValue.arr
  | v => .ok v

/-- The `dict((key, floatify_latlng(value)) for key, value in items)`
comprehension: values processed left to right, first exception wins. -/
def floatifyFields : List (String × JsonValue) → Except PyExc (List (String × JsonValue))
  | [] => .ok []
  | (k, v) :: rest => do
    let v' ← floatify_latlng v
    let rest' ← floatifyFields rest
    pure ((k, v') :: rest')

/-- The `[floatify_latlng(x) for x in input_value]` comprehension. -/
def floatifyList : List JsonValue → Except PyExc (List JsonValue)
  | [] => .ok []
  | x :: rest => do
    let x' ← floatify_latlng x
    let rest' ← floatifyList rest
    pure (x' :: rest')

end

/-- Python `decimal.Decimal` value: sign, coefficient digits as a natural
number, and a power-of-ten exponent.  `Decimal(str(x))` of a float keeps
exactly the digits of `str(x)` (so trailing zeros and the written
precision are preserved); the float-to-`str` step itself is outside the
model, so `_query_for_reverse_geocoding` is modelled from its `Decimal`
arguments on. -/
structure PyDecimal where
  neg : Bool
  coeff : Nat
  exp : Int
  deriving Repr, DecidableEq

/-- Little-endian base-10 digits of a natural number, with explicit fuel
(the number itself bounds the number of division steps). -/
def natDigitsAux : Nat → Nat → List Nat
  | 0, _ => []
  | fuel + 1, n => if n = 0 then [] else n % 10 :: natDigitsAux fuel (n / 10)

/-- Little-endian base-10 digits of a natural number (empty for zero). -/
def natDigitsLE (n : Nat) : List Nat := natDigitsAux n n

/-- Decimal digit characters of a natural number, big-endian, as Python
`str(n)` produces. -/
def natDigitChars (n : Nat) : List Char :=
  if n = 0 then ['0'] else ((natDigitsLE n).map digitChar).reverse

/-- Fixed-point rendering of a `Decimal`, as Python `"{0:f}".format(d)`:
place the decimal point `exp` positions from the right end of the
coefficient digits, zero-padding as needed; never exponent notation.
Mirrors `_pydecimal`'s `__format__` dotplace computation. -/
def formatFBody (coeff : Nat) (exp : Int) : List Char :=
  let ds := natDigitChars coeff
  let leftdigits : Int := exp + ds.length
  if leftdigits ≤ 0 then
    '0' :: '.' :: (List.replicate (-leftdigits).toNat '0' ++ ds)
  else if (ds.length : Int) ≤ leftdigits then
    ds ++ List.replicate (leftdigits - ds.length).toNat '0'
  else
    ds.take leftdigits.toNat ++ '.' :: ds.drop leftdigits.toNat

/-- Characters of the fixed-point rendering of a full `Decimal`: minus
sign when negative, then the unsigned body. -/
def formatFChars (d : PyDecimal) : List Char :=
  if d.neg then '-' :: formatFBody d.coeff d.exp else formatFBody d.coeff d.exp

/-- String form of the fixed-point rendering. -/
def formatF (d : PyDecimal) : String := ⟨formatFChars d⟩

/-- Source `_query_for_reverse_geocoding` (geocoder.py lines 245–254):
`"{0:f},{1:f}".format(Decimal(str(lat)), Decimal(str(lng)))`. -/
def query_for_reverse_geocoding (lat lng : PyDecimal) : String :=
  ⟨formatFChars lat ++ ',' :: formatFChars lng⟩

/-- Rational value denoted by a `PyDecimal`: ±coeff·10^exp. -/
def decValue (d : PyDecimal) : Rat :=
  if 0 ≤ d.exp then
    mkRat ((if d.neg then -(d.coeff : Int) else (d.coeff : Int)) * 10 ^ d.exp.toNat) 1
  else
    mkRat (if d.neg then -(d.coeff : Int) else (d.coeff : Int)) (10 ^ (-d.exp).toNat)

/-- Unsigned part of the fixed-point decimal parser: integer digits,
optionally a dot and fraction digits. -/
def ratOfFixedCore (neg : Bool) (cs1 : List Char) : Option Rat :=
  let ip := cs1.takeWhile (fun c => c ≠ '.')
  let restm := cs1.dropWhile (fun c => c ≠ '.')
  match restm with
  | [] =>
    if !ip.isEmpty && ip.all isDigitChar then
      some (mkRat (if neg then -(natOfBE ip : Int) else (natOfBE ip : Int)) 1)
    else none
  | _ :: fp =>
    if !ip.isEmpty && ip.all isDigitChar && !fp.isEmpty && fp.all isDigitChar then
      let numAbs : Nat := natOfBE ip * 10 ^ fp.length + natOfBE fp
      some (mkRat (if neg then -(numAbs : Int) else (numAbs : Int)) (10 ^ fp.length))
    else none

/-- Rational value denoted by a plain fixed-point decimal string
(optional sign, integer digits, optional fraction digits); `none` if the
characters are not of that shape.  Used to state that the formatted query
preserves the coordinate values exactly. -/
def ratOfFixedChars (cs : List Char) : Option Rat :=
  let (neg, cs1) := parseSign cs
  ratOfFixedCore neg cs1

/-- Rational value of a fixed-point decimal string. -/
def ratOfFixed (s : String) : Option Rat := ratOfFixedChars s.data

/-- Kind of HTTP session stored in the client: `aiohttp.ClientSession`
(from `__aenter__`) or `requests.Session` (from the synchronous
`__enter__`). -/
inductive SessionKind where
  | aio : SessionKind
  | sync : SessionKind
  deriving Repr, DecidableEq

/-- Underlying HTTP session object with its open/closed state. -/
structure Session where
  kind : SessionKind
  isOpen : Bool
  deriving Repr, DecidableEq

/-- The `OpenCageGeocodeUA` client object: API key and the `session`
attribute (`None` outside an active scope). -/
structure Client where
  key : String
  session : Option Session
  deriving Repr

/-- HTTP response delivered by the network: status code, and the parsed
JSON body, or `none` when `response.json()` raises `ValueError`
(non-JSON body). -/
structure HttpResponse where
  status : Nat
  body : Option JsonValue
  deriving Repr

/-- Python `j[k]` subscription: key lookup on a mapping (`KeyError` when
absent), `TypeError` on any non-mapping (string subscripts on lists,
strings, numbers, booleans or `None` all raise `TypeError`). -/
def dictGet (j : JsonValue) (k : String) : Except PyExc JsonValue :=
  match j with
  | .obj fields => fieldsGet fields k
  | _ => .error .typeError

/-- Character-list prefix test. -/
def charsStartWith : List Char → List Char → Bool
  | [], _ => true
  | _ :: _, [] => false
  | p :: ps, c :: cs => p == c && charsStartWith ps cs

/-- Character-list substring test. -/
def charsContain (pat : List Char) : List Char → Bool
  | [] => pat.isEmpty
  | c :: rest => charsStartWith pat (c :: rest) || charsContain pat rest

/-- Python `k in j` for a string `k`: key membership on a mapping,
element equality on a list, substring test on a string, `TypeError` on a
number, boolean or `None` (not iterable). -/
def pyContains (j : JsonValue) (k : String) : Except PyExc Bool :=
  match j with
  | .obj fields => .ok (fields.any (fun kv => kv.1 == k))
  | .arr xs => .ok (xs.any (fun x => match x with | .str s => s == k | _ => false))
  | .str s => .ok (charsContain k.data s.data)
  | _ => .error .typeError

/-- Python `int(x)`: truncation toward zero on a number, 0/1 on a
boolean, string parse (`ValueError` on failure), `TypeError` otherwise. -/
def pyInt (v : JsonValue) : Except PyExc Int :=
  match v with
  | .num q => .ok (q.num.tdiv q.den)
  | .bool b => .ok (if b then 1 else 0)
  | .str s =>
    match pyParseInt s with
    | some n => .ok n
    | none => .error .valueError
  | _ => .error .typeError

/-- Python `datetime.utcfromtimestamp(x)`: needs a number (booleans are
integers), `TypeError` otherwise.  The resulting UTC datetime is
identified with its POSIX timestamp. -/
def pyUtcFromTimestamp (v : JsonValue) : Except PyExc Rat :=
  match v with
  | .num q => .ok q
  | .bool b => .ok (if b then 1 else 0)
  | _ => .error .typeError

/-- The rate-limit branch of `_opencage_async_request` (geocoder.py lines
206–209): `reset_time = datetime.utcfromtimestamp(response_json['rate']['reset'])`
then `raise RateLimitExceededError(reset_to=int(response_json['rate']['limit']),
reset_time=reset_time)`, with the source's evaluation order. -/
def rateLimitResult (j : JsonValue) : Except PyExc JsonValue := do
  let rate ← dictGet j "rate"
  let resetV ← dictGet rate "reset"
  let resetTime ← pyUtcFromTimestamp resetV
  let rate2 ← dictGet j "rate"
  let limitV ← dictGet rate2 "limit"
  let resetTo ← pyInt limitV
  throw (.rateLimit resetTo resetTime)

/-- Source `_opencage_async_request` (geocoder.py lines 189–217) response
handling.  `response.json()` failing with `ValueError` is only rescued
into `UnknownError` when the status is 200; for other statuses the local
`response_json` stays unbound and any later use raises
`UnboundLocalError`.  Then the status checks run in source order, and
finally the `'results' not in response_json` membership test. -/
def opencage_async_request (resp : HttpResponse) : Except PyExc JsonValue :=
  if resp.body.isNone && resp.status == 200 then
    throw (.unknown "Non-JSON result from server")
  else if resp.status == 401 then
    throw .notAuthorized
  else if resp.status == 403 then
    throw .forbidden
  else if resp.status == 402 || resp.status == 429 then
    match resp.body with
    | none => throw .unboundLocal
    | some j => rateLimitResult j
  else if resp.status == 500 then
    throw (.unknown "500 status code from API")
  else
    match resp.body with
    | none => throw .unboundLocal
    | some j => do
      let has ← pyContains j "results"
      if !has then throw (.unknown "JSON from API doesn't have a 'results' key")
      else pure j

/-- Python `d[k] = v` on a mapping kept as an insertion-ordered
association list: overwrite in place if the key exists, else append. -/
def pySet {α : Type} (d : List (String × α)) (k : String) (v : α) : List (String × α) :=
  if (d.lookup k).isSome then
    d.map (fun kv => bif kv.1 == k then (k, v) else kv)
  else d ++ [(k, v)]

/-- Python `base.update(upd)`: set every key of `upd` in order. -/
def dictUpdate {α : Type} (base upd : List (String × α)) : List (String × α) :=
  upd.foldl (fun d kv => pySet d kv.1 kv.2) base

/-- Source `_parse_request` (geocoder.py lines 219–225): reject non-string
queries with `InvalidInputError(bad_value=query)`, else build
`{'q': query, 'key': self.key}` and `update` it with the caller's
parameters. -/
def parse_request (c : Client) (query : JsonValue) (params : List (String × JsonValue)) :
    Except PyExc (List (String × JsonValue)) :=
  match query with
  | .str q => .ok (dictUpdate [("q", .str q), ("key", .str c.key)] params)
  | _ => .error (.invalidInput query)

/-- Source `geocode_async` (geocoder.py lines 146–172).  The
`aiohttp_avaiable` flag is true in the model (the import succeeded —
otherwise `__aenter__` could never have run).  Then: `if not
self.session` raises `AioHttpError`; a session of the wrong type raises
`AioHttpError`; then `_parse_request` (InvalidInputError for non-string
queries), the network request, and `floatify_latlng(response['results'])`. -/
def geocode_async (c : Client) (query : JsonValue) (params : List (String × JsonValue))
    (resp : HttpResponse) : Except PyExc JsonValue :=
  match c.session with
  | none => throw (.aioHttp "Async methods must be used inside an async context.")
  | some s =>
    if s.kind != .aio then
      throw (.aioHttp "You must use `geocode_async` in an async context.")
    else do
      let _request ← parse_request c query params
      let response ← opencage_async_request resp
      let results ← dictGet response "results"
      floatify_latlng results

/-- Source `reverse_geocode_async` (geocoder.py lines 174–187):
`geocode_async(_query_for_reverse_geocoding(lat, lng), **kwargs)`. -/
def reverse_geocode_async (c : Client) (lat lng : PyDecimal)
    (params : List (String × JsonValue)) (resp : HttpResponse) : Except PyExc JsonValue :=
  geocode_async c (.str (query_for_reverse_geocoding lat lng)) params resp

/-- Source `__aenter__` (geocoder.py lines 134–139): store a fresh open
`aiohttp.ClientSession` on the client. -/
def aenter (c : Client) : Client :=
  { c with session := some { kind := .aio, isOpen := true } }

/-- Source `__aexit__` (geocoder.py lines 141–144): `await
self.session.close()`, clear the attribute, return `False` (exceptions
not suppressed).  Also reports the closed session object.  Calling it
with no session would be an `AttributeError` on `None`. -/
def aexit (c : Client) : Except PyExc (Client × Session × Bool) :=
  match c.session with
  | none => .error .attributeError
  | some s => .ok ({ c with session := none }, { s with isOpen := false }, false)

/-- Python's `async with` protocol around a client: run `__aenter__`,
the body, then `__aexit__` on every exit path (normal or exceptional); a
`False` return from `__aexit__` lets the body's exception propagate.
Returns the overall outcome, the final client, and the session object
`__aexit__` closed (if it ran without error). -/
def runScope {α : Type} (c : Client) (body : Client → Except PyExc α) :
    Except PyExc α × Client × Option Session :=
  let c1 := aenter c
  let r := body c1
  match aexit c1 with
  | .ok (c2, closedSession, _suppress) => (r, c2, some closedSession)
  | .error e => (.error e, c1, none)

mutual

/-- Fuel-bounded evaluator for `floatify_latlng`: one unit of fuel per
tree level, `none` when the fuel runs out.  Used to state termination of
the recursion with an explicit bound. -/
def floatifyFuel : Nat → JsonValue → Option (Except PyExc JsonValue)
  | 0, _ => none
  | n + 1, .obj fields =>
    if isCoordLeaf fields then
      some (do
        let la ← fieldsGet fields "lat"
        let lo ← fieldsGet fields "lng"
        let la' ← float_if_float la
        let lo' ← float_if_float lo
        pure (.obj [("lat", la'), ("lng", lo')]))
    else
      match floatifyFieldsFuel n fields with
      | none => none
      | some r => some (r.map JsonValue.obj)
  | n + 1, .arr xs =>
    match floatifyListFuel n xs with
    | none => none
    | some r => some (r.map JsonValue.arr)
  | _ + 1, v => some (.ok v)

/-- Fuel-bounded evaluator for `floatifyFields`. -/
def floatifyFieldsFuel : Nat → List (String × JsonValue) → Option (Except PyExc (List (String × JsonValue)))
  | _, [] => some (.ok [])
  | n, (k, v) :: rest =>
    match floatifyFuel n v with
    | none => none
    | some (.error e) => some (.error e)
    | some (.ok v') =>
      match floatifyFieldsFuel n rest with
      | none => none
      | some (.error e) => some (.error e)
      | some (.ok rest') => some (.ok ((k, v') :: rest'))

/-- Fuel-bounded evaluator for `floatifyList`. -/
def floatifyListFuel : Nat → List JsonValue → Option (Except PyExc (List JsonValue))
  | _, [] => some (.ok [])
  | n, x :: rest =>
    match floatifyFuel n x with
    | none => none
    | some (.error e) => some (.error e)
    | some (.ok x') =>
      match floatifyListFuel n rest with
      | none => none
      | some (.error e) => some (.error e)
      | some (.ok rest') => some (.ok (x' :: rest'))

end

mutual

/-- Shape comparison underlying the structural-preservation property:
`shapeOk x y` holds when `y` has exactly the shape of `x` — the same key
list at every non-leaf mapping node, the same length and element order at
every sequence node, scalars unchanged — with the two values of a
coordinate leaf (and only those) free to differ; a coordinate leaf maps
to a `lat`/`lng` mapping in sorted key order. -/
def shapeOk : JsonValue → JsonValue → Bool
  | .obj f1, .obj f2 =>
    if isCoordLeaf f1 then f2.map Prod.fst == ["lat", "lng"]
    else shapeOkFields f1 f2
  | .arr xs, .arr ys => shapeOkList xs ys
  | .str a, .str b => a == b
  | .num a, .num b => a == b
  | .bool a, .bool b => a == b
  | .null, .null => true
  | _, _ => false

/-- Pairwise shape comparison of mapping entries: equal keys in equal
order, values compared recursively. -/
def shapeOkFields : List (String × JsonValue) → List (String × JsonValue) → Bool
  | [], [] => true
  | (k1, v1) :: r1, (k2, v2) :: r2 => k1 == k2 && shapeOk v1 v2 && shapeOkFields r1 r2
  | _, _ => false

/-- Pairwise shape comparison of sequence elements. -/
def shapeOkList : List JsonValue → List JsonValue → Bool
  | [], [] => true
  | x :: xs, y :: ys => shapeOk x y && shapeOkList xs ys
  | _, _ => false

end

/-- Numeric scalar test. -/
def isNumJ : JsonValue → Bool
  | .num _ => true
  | _ => false

mutual

/-- Every coordinate leaf (two-key `lat`/`lng` mapping) in the tree
already has numeric values. -/
def latLngNumeric : JsonValue → Bool
  | .obj fields =>
    if isCoordLeaf fields then fields.all (fun kv => isNumJ kv.2)
    else latLngNumericFields fields
  | .arr xs => latLngNumericList xs
  | _ => true

/-- `latLngNumeric` over mapping entries. -/
def latLngNumericFields : List (String × JsonValue) → Bool
  | [] => true
  | (_, v) :: rest => latLngNumeric v && latLngNumericFields rest

/-- `latLngNumeric` over sequence elements. -/
def latLngNumericList : List JsonValue → Bool
  | [] => true
  | x :: rest => latLngNumeric x && latLngNumericList rest

end

/-- Whether a request outcome is a `RateLimitExceededError`. -/
def isRateLimitOutcome : Except PyExc JsonValue → Bool
  | .error (.rateLimit _ _) => true
  | _ => false

/-- Structural induction for `JsonValue` with membership hypotheses for
the nested lists. -/
theorem jsonInduction {P : JsonValue → Prop}
    (hobj : ∀ fs : List (String × JsonValue), (∀ p ∈ fs, P p.2) → P (.obj fs))
    (harr : ∀ xs : List JsonValue, (∀ x ∈ xs, P x) → P (.arr xs))
    (hstr : ∀ s, P (.str s)) (hnum : ∀ q, P (.num q))
    (hbool : ∀ b, P (.bool b)) (hnull : P .null) :
    ∀ v, P v
  | .obj fs => hobj fs (fun p hp =>
      have : sizeOf p.2 < 1 + sizeOf fs := by
        have h1 := List.sizeOf_lt_of_mem hp
        have h2 : sizeOf p.2 < sizeOf p := by
          obtain ⟨a, b⟩ := p
          simp only [Prod.mk.sizeOf_spec]
          omega
        omega
      jsonInduction hobj harr hstr hnum hbool hnull p.2)
  | .arr xs => harr xs (fun x hx =>
      have : sizeOf x < 1 + sizeOf xs := by
        have h1 := List.sizeOf_lt_of_mem hx
        omega
      jsonInduction hobj harr hstr hnum hbool hnull x)
  | .str s => hstr s
  | .num q => hnum q
  | .bool b => hbool b
  | .null => hnull
  termination_by v => sizeOf v

theorem mem_insertStr {a s : String} {l : List String} :
    a ∈ insertStr s l ↔ a = s ∨ a ∈ l := by
  induction l with
  | nil => simp [insertStr]
  | cons t rest ih =>
    simp only [insertStr]
    by_cases h : strLe s t = true
    · simp [h]
    · simp only [h]
      simp only [Bool.false_eq_true, if_false, List.mem_cons, ih]
      tauto

theorem mem_sortStrs {a : String} {l : List String} :
    a ∈ sortStrs l ↔ a ∈ l := by
  induction l with
  | nil => simp [sortStrs]
  | cons s rest ih => simp [sortStrs, mem_insertStr, ih]

/-- A coordinate leaf has both keys present. -/
theorem isCoordLeaf_keys {fields : List (String × JsonValue)}
    (h : isCoordLeaf fields = true) :
    "lat" ∈ fields.map Prod.fst ∧ "lng" ∈ fields.map Prod.fst := by
  have hs : sortStrs (fields.map Prod.fst) = ["lat", "lng"] := by
    simp [isCoordLeaf] at h
    exact h.2
  constructor
  · have : "lat" ∈ sortStrs (fields.map Prod.fst) := by rw [hs]; simp
    exact mem_sortStrs.mp this
  · have : "lng" ∈ sortStrs (fields.map Prod.fst) := by rw [hs]; simp
    exact mem_sortStrs.mp this

theorem lookup_isSome_of_mem_keys {α : Type} {l : List (String × α)} {k : String}
    (h : k ∈ l.map Prod.fst) : (l.lookup k).isSome := by
  induction l with
  | nil => simp at h
  | cons p rest ih =>
    obtain ⟨a, b⟩ := p
    simp only [List.map_cons, List.mem_cons] at h
    by_cases hk : k = a
    · subst hk; simp [List.lookup]
    · have : k ∈ rest.map Prod.fst := by
        rcases h with h | h
        · exact absurd h hk
        · exact h
      simp only [List.lookup]
      have hbeq : (k == a) = false := beq_eq_false_iff_ne.mpr hk
      rw [hbeq]
      exact ih this

theorem lookup_mem {α : Type} {l : List (String × α)} {k : String} {v : α}
    (h : l.lookup k = some v) : (k, v) ∈ l := by
  induction l with
  | nil => simp [List.lookup] at h
  | cons p rest ih =>
    obtain ⟨a, b⟩ := p
    simp only [List.lookup] at h
    by_cases hk : (k == a) = true
    · rw [hk] at h
      simp only [Option.some.injEq] at h
      subst h
      have : k = a := eq_of_beq hk
      subst this
      simp
    · rw [Bool.not_eq_true] at hk
      rw [hk] at h
      exact List.mem_cons_of_mem _ (ih h)

theorem floatify_obj_leaf {fields : List (String × JsonValue)}
    (h : isCoordLeaf fields = true) :
    floatify_latlng (.obj fields) =
      (do
        let la ← fieldsGet fields "lat"
        let lo ← fieldsGet fields "lng"
        let la' ← float_if_float la
        let lo' ← float_if_float lo
        pure (.obj [("lat", la'), ("lng", lo')])) := by
  simp [floatify_latlng, h]

theorem floatify_obj_nonleaf {fields : List (String × JsonValue)}
    (h : isCoordLeaf fields = false) :
    floatify_latlng (.obj fields) = (floatifyFields fields).map JsonValue.obj := by
  simp [floatify_latlng, h]

theorem floatify_arr (xs : List JsonValue) :
    floatify_latlng (.arr xs) = (floatifyList xs).map JsonValue.arr := rfl

theorem floatifyFields_eq_mapM (fs : List (String × JsonValue)) :
    floatifyFields fs =
      fs.mapM (fun kv => (floatify_latlng kv.2).map (fun v' => (kv.1, v'))) := by
  induction fs with
  | nil => rfl
  | cons p rest ih =>
    obtain ⟨k, v⟩ := p
    rw [List.mapM_cons]
    simp only [floatifyFields, ih]
    cases hv : floatify_latlng v with
    | error e => simp [hv, Except.map, Except.bind, bind]
    | ok v' =>
      simp only [hv, Except.map]
      cases hr : rest.mapM (fun kv => (floatify_latlng kv.2).map (fun v' => (kv.1, v'))) with
      | error e => simp [hr, Except.bind, bind]
      | ok out => simp [hr, Except.bind, bind, pure, Except.pure]

theorem floatifyFields_keys {fs out : List (String × JsonValue)}
    (h : floatifyFields fs = .ok out) : out.map Prod.fst = fs.map Prod.fst := by
  induction fs generalizing out with
  | nil =>
    simp only [floatifyFields] at h
    cases h
    rfl
  | cons p rest ih =>
    obtain ⟨k, v⟩ := p
    simp only [floatifyFields] at h
    cases hv : floatify_latlng v with
    | error e => rw [hv] at h; simp [Except.bind, bind] at h
    | ok v' =>
      rw [hv] at h
      cases hr : floatifyFields rest with
      | error e => rw [hr] at h; simp [Except.bind, bind] at h
      | ok rest' =>
        rw [hr] at h
        simp only [Except.bind, bind, pure, Except.pure, Except.ok.injEq] at h
        subst h
        simp [ih hr]

theorem isCoordLeaf_of_keys_eq {fs out : List (String × JsonValue)}
    (h : out.map Prod.fst = fs.map Prod.fst) : isCoordLeaf out = isCoordLeaf fs := by
  have hlen : out.length = fs.length := by
    have := congrArg List.length h
    simpa using this
  simp [isCoordLeaf, hlen, h]

theorem lookup_isNum {fs : List (String × JsonValue)} {k : String} {v : JsonValue}
    (hl : fs.lookup k = some v) (hall : fs.all (fun kv => isNumJ kv.2) = true) :
    isNumJ v = true := by
  have hm := lookup_mem hl
  rw [List.all_eq_true] at hall
  exact hall _ hm

theorem isNumJ_num {v : JsonValue} (h : isNumJ v = true) : ∃ q, v = .num q := by
  cases v <;> simp [isNumJ] at h ⊢

theorem floatify_leaf_nums (qa qb : Rat) :
    floatify_latlng (.obj [("lat", .num qa), ("lng", .num qb)]) =
      .ok (.obj [("lat", .num qa), ("lng", .num qb)]) := rfl

/-- Claim C1: `floatify_latlng` replaces every mapping whose two sorted
keys are exactly `lat`/`lng` by the mapping of `float_if_float` of its
two values, and rebuilds every other mapping with the same keys and every
value recursively normalized, never treating it as a coordinate leaf. -/
theorem c1_floatify_branches (fields : List (String × JsonValue)) :
    (isCoordLeaf fields = true →
      floatify_latlng (.obj fields) =
        (do
          let la ← fieldsGet fields "lat"
          let lo ← fieldsGet fields "lng"
          let la' ← float_if_float la
          let lo' ← float_if_float lo
          pure (.obj [("lat", la'), ("lng", lo')])))
  ∧ (isCoordLeaf fields = false →
      floatify_latlng (.obj fields) = (floatifyFields fields).map JsonValue.obj
    ∧ floatifyFields fields =
        fields.mapM (fun kv => (floatify_latlng kv.2).map (fun v' => (kv.1, v')))
    ∧ ∀ out, floatifyFields fields = .ok out → out.map Prod.fst = fields.map Prod.fst) :=
  ⟨fun h => floatify_obj_leaf h,
   fun h => ⟨floatify_obj_nonleaf h, floatifyFields_eq_mapM fields,
     fun _ ho => floatifyFields_keys ho⟩⟩

/-- Witness for C1: the exact two-key leaf `{"lat": "1.5", "lng": "2.5"}`
is converted to floats; the three-key superset (`alt` added) and the
two-key `{lat, altitude}` mapping are rebuilt generically (scalar values
untouched outside a coordinate leaf). -/
theorem c1_floatify_branches_witness :
    floatify_latlng (.obj [("lat", .str "1.5"), ("lng", .str "2.5")]) =
      .ok (.obj [("lat", .num (mkRat 3 2)), ("lng", .num (mkRat 5 2))])
  ∧ floatify_latlng (.obj [("lat", .str "1.5"), ("lng", .str "2.5"), ("alt", .str "3")]) =
      .ok (.obj [("lat", .str "1.5"), ("lng", .str "2.5"), ("alt", .str "3")])
  ∧ floatify_latlng (.obj [("lat", .str "1.5"), ("altitude", .str "2.5")]) =
      .ok (.obj [("lat", .str "1.5"), ("altitude", .str "2.5")]) :=
  ⟨((c1_floatify_branches [("lat", .str "1.5"), ("lng", .str "2.5")]).1 rfl).trans rfl,
   (((c1_floatify_branches [("lat", .str "1.5"), ("lng", .str "2.5"), ("alt", .str "3")]).2
      rfl).1).trans rfl,
   (((c1_floatify_branches [("lat", .str "1.5"), ("altitude", .str "2.5")]).2
      rfl).1).trans rfl⟩

/-- Counterexample to C3 as stated: `float_if_float` of Python `None`
raises `TypeError` (only `ValueError` is caught), so it does not hold
that no failure propagates for inputs of every type. -/
theorem c3_counterexample_null_raises :
    float_if_float JsonValue.null = .error .typeError := rfl

/-- Claim C3 (amended): `float_if_float` never raises on number, boolean
or string inputs — numeric parse on success, the original value on a
`ValueError` parse failure — but on `None`, sequences and mappings the
`float()` call raises `TypeError`, which is not caught and propagates. -/
theorem c3_float_if_float_behaviour :
    (∀ q, float_if_float (.num q) = .ok (.num q))
  ∧ (∀ b, float_if_float (.bool b) = .ok (.num (if b then 1 else 0)))
  ∧ (∀ s, float_if_float (.str s) = .ok ((pyParseFloat s).elim (.str s) JsonValue.num))
  ∧ float_if_float .null = .error .typeError
  ∧ (∀ xs, float_if_float (.arr xs) = .error .typeError)
  ∧ (∀ fs, float_if_float (.obj fs) = .error .typeError) := by
  refine ⟨fun q => rfl, fun b => rfl, fun s => ?_, rfl, fun xs => rfl, fun fs => rfl⟩
  cases h : pyParseFloat s <;> simp [float_if_float, h, Option.elim]

theorem geocode_session_none {c : Client} (h : c.session = none)
    (q : JsonValue) (params : List (String × JsonValue)) (resp : HttpResponse) :
    geocode_async c q params resp =
      .error (.aioHttp "Async methods must be used inside an async context.") := by
  simp [geocode_async, h, throw, throwThe, MonadExceptOf.throw]

/-- Claim C4: a geocoding call on a client whose session scope is not
active fails with the session-not-active `AioHttpError`; exiting the
scope always closes the underlying session and clears the attribute,
returning the body's outcome unchanged on both the normal and the
exceptional exit path. -/
theorem c4_session_scope (c : Client) (q : JsonValue) (params : List (String × JsonValue))
    (resp : HttpResponse) (body : Client → Except PyExc JsonValue) :
    (c.session = none →
      geocode_async c q params resp =
        .error (.aioHttp "Async methods must be used inside an async context."))
  ∧ (runScope c body).2.1.session = none
  ∧ (runScope c body).2.2 = some { kind := .aio, isOpen := false }
  ∧ (runScope c body).1 = body (aenter c) :=
  ⟨fun h => geocode_session_none h q params resp, rfl, rfl, rfl⟩

/-- Witness for C4: a successful call inside the scope, the scope exits
with the session closed and cleared, and the same call on the client
afterwards fails with the session-not-active error. -/
theorem c4_session_scope_witness :
    (runScope ⟨"KEY", none⟩ (fun c1 => geocode_async c1 (.str "London") []
        ⟨200, some (.obj [("results", .arr [])])⟩)).1 = .ok (.arr [])
  ∧ (runScope ⟨"KEY", none⟩ (fun c1 => geocode_async c1 (.str "London") []
        ⟨200, some (.obj [("results", .arr [])])⟩)).2.1.session = none
  ∧ geocode_async (runScope ⟨"KEY", none⟩ (fun c1 => geocode_async c1 (.str "London") []
        ⟨200, some (.obj [("results", .arr [])])⟩)).2.1 (.str "London") []
        ⟨200, some (.obj [("results", .arr [])])⟩ =
      .error (.aioHttp "Async methods must be used inside an async context.") :=
  ⟨rfl,
   (c4_session_scope ⟨"KEY", none⟩ (.str "London") [] ⟨200, some (.obj [("results", .arr [])])⟩
     (fun c1 => geocode_async c1 (.str "London") [] ⟨200, some (.obj [("results", .arr [])])⟩)).2.1,
   (c4_session_scope
     (runScope ⟨"KEY", none⟩ (fun c1 => geocode_async c1 (.str "London") []
        ⟨200, some (.obj [("results", .arr [])])⟩)).2.1
     (.str "London") [] ⟨200, some (.obj [("results", .arr [])])⟩
     (fun c1 => geocode_async c1 (.str "London") [] ⟨200, some (.obj [("results", .arr [])])⟩)).1
     rfl⟩

/-- Claim C10: in `geocode_async` the session check precedes input
validation — with no active session, a non-string query fails with the
`AioHttpError`, never with `InvalidInputError`. -/
theorem c10_session_before_validation (c : Client) (q : JsonValue)
    (params : List (String × JsonValue)) (resp : HttpResponse)
    (h : c.session = none) (hq : ∀ t, q ≠ .str t) :
    geocode_async c q params resp =
      .error (.aioHttp "Async methods must be used inside an async context.")
  ∧ ∀ v, geocode_async c q params resp ≠ .error (.invalidInput v) := by
  have h1 := geocode_session_none h q params resp
  refine ⟨h1, fun v hcon => ?_⟩
  rw [h1] at hcon
  simp at hcon

/-- Witness for C10: the non-string query 5 on a never-entered client. -/
theorem c10_session_before_validation_witness :
    geocode_async ⟨"KEY", none⟩ (.num 5) [] ⟨200, some (.obj [("results", .arr [])])⟩ =
      .error (.aioHttp "Async methods must be used inside an async context.")
  ∧ geocode_async ⟨"KEY", none⟩ (.num 5) [] ⟨200, some (.obj [("results", .arr [])])⟩ ≠
      .error (.invalidInput (.num 5)) :=
  ⟨(c10_session_before_validation ⟨"KEY", none⟩ (.num 5) [] ⟨200, some (.obj [("results", .arr [])])⟩
      rfl (fun t ht => JsonValue.noConfusion ht)).1,
   (c10_session_before_validation ⟨"KEY", none⟩ (.num 5) [] ⟨200, some (.obj [("results", .arr [])])⟩
      rfl (fun t ht => JsonValue.noConfusion ht)).2 (.num 5)⟩

theorem lookup_map_replace {α : Type} {d : List (String × α)} {k : String} (v : α)
    (h : (d.lookup k).isSome) :
    (d.map (fun kv => bif kv.1 == k then (k, v) else kv)).lookup k = some v := by
  induction d with
  | nil => simp [List.lookup] at h
  | cons p rest ih =>
    obtain ⟨a, b⟩ := p
    by_cases hk : a = k
    · subst hk
      simp [List.lookup]
    · have ha : (a == k) = false := beq_eq_false_iff_ne.mpr hk
      have hb : (k == a) = false := beq_eq_false_iff_ne.mpr (fun hc => hk hc.symm)
      simp only [List.lookup, hb] at h
      simp only [List.map_cons, ha, cond_false, List.lookup, hb]
      exact ih h

theorem lookup_map_replace_ne {α : Type} {d : List (String × α)} {k k' : String} (v : α)
    (h : k' ≠ k) :
    (d.map (fun kv => bif kv.1 == k then (k, v) else kv)).lookup k' = d.lookup k' := by
  induction d with
  | nil => simp
  | cons p rest ih =>
    obtain ⟨a, b⟩ := p
    by_cases ha : a = k
    · subst ha
      have hb : (k' == a) = false := beq_eq_false_iff_ne.mpr h
      simp only [List.map_cons, beq_self_eq_true, cond_true, List.lookup, hb, ih]
    · have hf : (a == k) = false := beq_eq_false_iff_ne.mpr ha
      simp only [List.map_cons, hf, cond_false, List.lookup]
      cases hkk : (k' == a) <;> simp [ih]

theorem lookup_append {α : Type} (l1 l2 : List (String × α)) (k : String) :
    (l1 ++ l2).lookup k = (l1.lookup k).or (l2.lookup k) := by
  induction l1 with
  | nil => simp [List.lookup]
  | cons p rest ih =>
    obtain ⟨a, b⟩ := p
    cases hkk : (k == a) <;> simp [List.lookup, hkk, ih]

theorem lookup_pySet_self {α : Type} (d : List (String × α)) (k : String) (v : α) :
    (pySet d k v).lookup k = some v := by
  unfold pySet
  cases hc : d.lookup k with
  | some w =>
    have hs : (d.lookup k).isSome := by simp [hc]
    simp only [hc, Option.isSome_some, if_true]
    exact lookup_map_replace v hs
  | none =>
    simp only [hc, Option.isSome_none, Bool.false_eq_true, if_false]
    rw [lookup_append, hc]
    simp [List.lookup, Option.or]

theorem lookup_pySet_ne {α : Type} (d : List (String × α)) {k k' : String} (v : α)
    (h : k' ≠ k) : (pySet d k v).lookup k' = d.lookup k' := by
  unfold pySet
  cases hc : d.lookup k with
  | some w =>
    simp only [hc, Option.isSome_some, if_true]
    exact lookup_map_replace_ne v h
  | none =>
    simp only [hc, Option.isSome_none, Bool.false_eq_true, if_false]
    rw [lookup_append]
    have hone : ([(k, v)] : List (String × α)).lookup k' = none := by
      have hb : (k' == k) = false := beq_eq_false_iff_ne.mpr h
      simp [List.lookup, hb]
    rw [hone]
    cases hd : d.lookup k' <;> simp [Option.or]

theorem lookup_eq_none_of_not_mem_keys {α : Type} {l : List (String × α)} {k : String}
    (h : k ∉ l.map Prod.fst) : l.lookup k = none := by
  induction l with
  | nil => rfl
  | cons p rest ih =>
    obtain ⟨a, b⟩ := p
    simp only [List.map_cons, List.mem_cons] at h
    push_neg at h
    have : (k == a) = false := beq_eq_false_iff_ne.mpr h.1
    simp [List.lookup, this, ih h.2]

theorem lookup_dictUpdate {α : Type} (upd : List (String × α)) (base : List (String × α))
    (k : String) (h : (upd.map Prod.fst).Nodup) :
    (dictUpdate base upd).lookup k = (upd.lookup k).or (base.lookup k) := by
  induction upd generalizing base with
  | nil => simp [dictUpdate, Option.or]
  | cons p rest ih =>
    obtain ⟨uk, uv⟩ := p
    simp only [List.map_cons, List.nodup_cons] at h
    have hstep : dictUpdate base ((uk, uv) :: rest) = dictUpdate (pySet base uk uv) rest := rfl
    rw [hstep, ih (pySet base uk uv) h.2]
    by_cases hk : k = uk
    · subst hk
      have hnone : rest.lookup k = none := lookup_eq_none_of_not_mem_keys h.1
      simp [hnone, lookup_pySet_self, List.lookup, Option.or]
    · have hb : (k == uk) = false := beq_eq_false_iff_ne.mpr hk
      simp [List.lookup, hb, lookup_pySet_ne base uv hk]

theorem lookup_dictUpdate_notin {α : Type} (upd : List (String × α)) (base : List (String × α))
    (k : String) (h : upd.lookup k = none) :
    (dictUpdate base upd).lookup k = base.lookup k := by
  induction upd generalizing base with
  | nil => rfl
  | cons p rest ih =>
    obtain ⟨uk, uv⟩ := p
    have hk : (k == uk) = false := by
      cases hc : (k == uk)
      · rfl
      · simp [List.lookup, hc] at h
    simp only [List.lookup, hk] at h
    have hstep : dictUpdate base ((uk, uv) :: rest) = dictUpdate (pySet base uk uv) rest := rfl
    rw [hstep, ih (pySet base uk uv) h]
    exact lookup_pySet_ne base uv (by simpa using beq_eq_false_iff_ne.mp hk)

/-- Claim C8: with an active async session, a non-string query fails with
`InvalidInputError` carrying the bad value regardless of what the network
would answer — no request is consulted; a string query builds the payload
`{'q': query, 'key': key}` updated with the caller's parameters, where
caller-supplied keys override the defaults and unknown keys fall back to
the defaults. -/
theorem c8_parse_request (c : Client) (s : Session) (params : List (String × JsonValue))
    (resp : HttpResponse) (hs : c.session = some s) (hk : s.kind = .aio) :
    (∀ q : JsonValue, (∀ t, q ≠ .str t) →
        geocode_async c q params resp = .error (.invalidInput q))
  ∧ (∀ qs : String, parse_request c (.str qs) params =
        .ok (dictUpdate [("q", .str qs), ("key", .str c.key)] params))
  ∧ (∀ qs k, (params.map Prod.fst).Nodup → (params.lookup k).isSome →
        (dictUpdate [("q", JsonValue.str qs), ("key", .str c.key)] params).lookup k =
          params.lookup k)
  ∧ (∀ qs k, params.lookup k = none →
        (dictUpdate [("q", JsonValue.str qs), ("key", .str c.key)] params).lookup k =
          ([("q", JsonValue.str qs), ("key", .str c.key)] : List (String × JsonValue)).lookup k) := by
  refine ⟨fun q hq => ?_, fun qs => rfl, fun qs k hnd hsome => ?_, fun qs k hnone => ?_⟩
  · cases q with
    | str t => exact absurd rfl (hq t)
    | obj fs =>
      simp [geocode_async, hs, hk, parse_request, Except.bind, bind, throw, throwThe,
        MonadExceptOf.throw]
    | arr xs =>
      simp [geocode_async, hs, hk, parse_request, Except.bind, bind, throw, throwThe,
        MonadExceptOf.throw]
    | num q =>
      simp [geocode_async, hs, hk, parse_request, Except.bind, bind, throw, throwThe,
        MonadExceptOf.throw]
    | bool b =>
      simp [geocode_async, hs, hk, parse_request, Except.bind, bind, throw, throwThe,
        MonadExceptOf.throw]
    | null =>
      simp [geocode_async, hs, hk, parse_request, Except.bind, bind, throw, throwThe,
        MonadExceptOf.throw]
  · rw [lookup_dictUpdate params _ k hnd]
    obtain ⟨v, hv⟩ := Option.isSome_iff_exists.mp hsome
    simp [hv, Option.or]
  · rw [lookup_dictUpdate_notin params _ k hnone]

/-- Witness for C8: a numeric query is rejected with the bad value while
the session is active; the payload for a string query keeps insertion
order with the caller's `key` overriding the default and `q` preserved. -/
theorem c8_parse_request_witness :
    geocode_async ⟨"KEY", some ⟨.aio, true⟩⟩ (.num 5) [("key", .str "override"), ("extra", .num 7)]
        ⟨200, some (.obj [("results", .arr [])])⟩ = .error (.invalidInput (.num 5))
  ∧ parse_request ⟨"KEY", some ⟨.aio, true⟩⟩ (.str "London")
        [("key", .str "override"), ("extra", .num 7)] =
      .ok [("q", .str "London"), ("key", .str "override"), ("extra", .num 7)]
  ∧ (dictUpdate [("q", JsonValue.str "London"), ("key", .str "KEY")]
        [("key", .str "override"), ("extra", .num 7)]).lookup "key" = some (.str "override")
  ∧ (dictUpdate [("q", JsonValue.str "London"), ("key", .str "KEY")]
        [("key", .str "override"), ("extra", .num 7)]).lookup "q" = some (.str "London") :=
  ⟨(c8_parse_request ⟨"KEY", some ⟨.aio, true⟩⟩ ⟨.aio, true⟩
      [("key", .str "override"), ("extra", .num 7)]
      ⟨200, some (.obj [("results", .arr [])])⟩ rfl rfl).1 (.num 5)
      (fun t ht => JsonValue.noConfusion ht),
   ((c8_parse_request ⟨"KEY", some ⟨.aio, true⟩⟩ ⟨.aio, true⟩
      [("key", .str "override"), ("extra", .num 7)]
      ⟨200, some (.obj [("results", .arr [])])⟩ rfl rfl).2.1 "London").trans rfl,
   ((c8_parse_request ⟨"KEY", some ⟨.aio, true⟩⟩ ⟨.aio, true⟩
      [("key", .str "override"), ("extra", .num 7)]
      ⟨200, some (.obj [("results", .arr [])])⟩ rfl rfl).2.2.1 "London" "key"
      (by simp) rfl).trans rfl,
   ((c8_parse_request ⟨"KEY", some ⟨.aio, true⟩⟩ ⟨.aio, true⟩
      [("key", .str "override"), ("extra", .num 7)]
      ⟨200, some (.obj [("results", .arr [])])⟩ rfl rfl).2.2.2 "London" "q" rfl).trans rfl⟩

/-- Counterexample to C2 as stated: status 402 with the parsed JSON body
`{}` does not fail as a rate-limit error — `response_json['rate']` raises
an uncaught `KeyError` instead. -/
theorem c2_counterexample_402_keyerror :
    opencage_async_request ⟨402, some (.obj [])⟩ = .error .keyError ∧
    isRateLimitOutcome (opencage_async_request ⟨402, some (.obj [])⟩) = false :=
  ⟨rfl, rfl⟩

/-- Claim C2 (amended): the response classification of
`_opencage_async_request`.  A non-JSON body with status 200 is the
"non-JSON result" `UnknownError`; 401 is `NotAuthorizedError`; 403 is
`ForbiddenError`; on 402/429 a non-JSON body hits the unbound
`response_json` local (`UnboundLocalError`) and a JSON body goes through
the `rate` extraction, which yields `RateLimitExceededError` with
`reset_to`/`reset_time` exactly when the body carries a well-typed
`rate.reset`/`rate.limit` (and otherwise raises the extraction's own
`KeyError`/`TypeError`/`ValueError`); 500 is the "500 status"
`UnknownError`; any other status with a non-JSON body hits
`UnboundLocalError`, and with a JSON body succeeds exactly when the
Python membership test `'results' in body` holds, fails with the
"missing results" `UnknownError` when it does not, and propagates the
`TypeError` of the membership test on non-container scalars. -/
theorem c2_response_classification (st : Nat) (body : Option JsonValue) :
    (body = none → st = 200 →
      opencage_async_request ⟨st, body⟩ = .error (.unknown "Non-JSON result from server"))
  ∧ (st = 401 → opencage_async_request ⟨st, body⟩ = .error .notAuthorized)
  ∧ (st = 403 → opencage_async_request ⟨st, body⟩ = .error .forbidden)
  ∧ (st = 402 ∨ st = 429 →
      (body = none → opencage_async_request ⟨st, body⟩ = .error .unboundLocal)
    ∧ (∀ j, body = some j → opencage_async_request ⟨st, body⟩ = rateLimitResult j)
    ∧ (∀ j rateObj resetV limV t n, body = some j →
        dictGet j "rate" = .ok rateObj →
        dictGet rateObj "reset" = .ok resetV →
        pyUtcFromTimestamp resetV = .ok t →
        dictGet rateObj "limit" = .ok limV →
        pyInt limV = .ok n →
        opencage_async_request ⟨st, body⟩ = .error (.rateLimit n t)))
  ∧ (st = 500 →
      opencage_async_request ⟨st, body⟩ = .error (.unknown "500 status code from API"))
  ∧ (st ≠ 401 → st ≠ 403 → st ≠ 402 → st ≠ 429 → st ≠ 500 →
      (st ≠ 200 → body = none → opencage_async_request ⟨st, body⟩ = .error .unboundLocal)
    ∧ (∀ j, body = some j → pyContains j "results" = .ok true →
          opencage_async_request ⟨st, body⟩ = .ok j)
    ∧ (∀ j, body = some j → pyContains j "results" = .ok false →
          opencage_async_request ⟨st, body⟩ =
            .error (.unknown "JSON from API doesn't have a 'results' key"))
    ∧ (∀ j e, body = some j → pyContains j "results" = .error e →
          opencage_async_request ⟨st, body⟩ = .error e)) := by
  refine ⟨?_, ?_, ?_, ?_, ?_, ?_⟩
  · rintro rfl rfl
    simp [opencage_async_request, throw, throwThe, MonadExceptOf.throw]
  · rintro rfl
    simp [opencage_async_request, throw, throwThe, MonadExceptOf.throw]
  · rintro rfl
    simp [opencage_async_request, throw, throwThe, MonadExceptOf.throw]
  · rintro (rfl | rfl)
    · refine ⟨fun hb => ?_, fun j hb => ?_,
        fun j rateObj resetV limV t n hb k1 k2 k3 k4 k5 => ?_⟩
      · subst hb
        simp [opencage_async_request, throw, throwThe, MonadExceptOf.throw]
      · subst hb
        simp [opencage_async_request]
      · subst hb
        simp [opencage_async_request, rateLimitResult, k1, k2, k3, k4, k5,
          Except.bind, bind, throw, throwThe, MonadExceptOf.throw]
    · refine ⟨fun hb => ?_, fun j hb => ?_,
        fun j rateObj resetV limV t n hb k1 k2 k3 k4 k5 => ?_⟩
      · subst hb
        simp [opencage_async_request, throw, throwThe, MonadExceptOf.throw]
      · subst hb
        simp [opencage_async_request]
      · subst hb
        simp [opencage_async_request, rateLimitResult, k1, k2, k3, k4, k5,
          Except.bind, bind, throw, throwThe, MonadExceptOf.throw]
  · rintro rfl
    cases body <;> simp [opencage_async_request, throw, throwThe, MonadExceptOf.throw]
  · intro h1 h2 h3 h4 h5
    have e401 : (st == 401) = false := beq_eq_false_iff_ne.mpr h1
    have e403 : (st == 403) = false := beq_eq_false_iff_ne.mpr h2
    have e402 : (st == 402) = false := beq_eq_false_iff_ne.mpr h3
    have e429 : (st == 429) = false := beq_eq_false_iff_ne.mpr h4
    have e500 : (st == 500) = false := beq_eq_false_iff_ne.mpr h5
    refine ⟨fun h200 hb => ?_, fun j hb hc => ?_, fun j hb hc => ?_, fun j e hb hc => ?_⟩ <;>
      first
      | (have e200 : (st == 200) = false := beq_eq_false_iff_ne.mpr h200
         subst hb
         simp [opencage_async_request, e200, e401, e403, e402, e429, e500,
           Except.bind, bind, throw, throwThe, MonadExceptOf.throw])
      | (subst hb
         simp [opencage_async_request, e401, e403, e402, e429, e500, hc,
           Except.bind, bind, pure, Except.pure, throw, throwThe, MonadExceptOf.throw])

/-- Witness for the amended C2: status 429 with a well-formed rate body
produces `RateLimitExceededError` carrying `reset_to = 2500` and the
reset timestamp. -/
theorem c2_response_classification_witness :
    opencage_async_request
        ⟨429, some (.obj [("rate", .obj [("reset", .num 12345), ("limit", .num 2500)])])⟩ =
      .error (.rateLimit 2500 12345) :=
  ((c2_response_classification 429
      (some (.obj [("rate", .obj [("reset", .num 12345), ("limit", .num 2500)])]))).2.2.2.1
    (Or.inr rfl)).2.2
    (.obj [("rate", .obj [("reset", .num 12345), ("limit", .num 2500)])])
    (.obj [("reset", .num 12345), ("limit", .num 2500)])
    (.num 12345) (.num 2500) 12345 2500
    rfl rfl rfl rfl rfl rfl

theorem floatify_leaf_of_nums {fs : List (String × JsonValue)} (hc : isCoordLeaf fs = true)
    (hall : fs.all (fun kv => isNumJ kv.2) = true) :
    ∃ qa qb, floatify_latlng (.obj fs) = .ok (.obj [("lat", .num qa), ("lng", .num qb)]) := by
  obtain ⟨hlat, hlng⟩ := isCoordLeaf_keys hc
  obtain ⟨va, hva⟩ := Option.isSome_iff_exists.mp (lookup_isSome_of_mem_keys hlat)
  obtain ⟨vb, hvb⟩ := Option.isSome_iff_exists.mp (lookup_isSome_of_mem_keys hlng)
  obtain ⟨qa, rfl⟩ := isNumJ_num (lookup_isNum hva hall)
  obtain ⟨qb, rfl⟩ := isNumJ_num (lookup_isNum hvb hall)
  refine ⟨qa, qb, ?_⟩
  rw [floatify_obj_leaf hc]
  simp [fieldsGet, hva, hvb, float_if_float, Except.bind, bind, pure, Except.pure]

theorem floatifyFields_fix {fs : List (String × JsonValue)}
    (ih : ∀ p ∈ fs, latLngNumeric p.2 = true →
      ∃ y, floatify_latlng p.2 = .ok y ∧ floatify_latlng y = .ok y)
    (h : latLngNumericFields fs = true) :
    ∃ out, floatifyFields fs = .ok out ∧ out.map Prod.fst = fs.map Prod.fst ∧
      floatifyFields out = .ok out := by
  induction fs with
  | nil => exact ⟨[], rfl, rfl, rfl⟩
  | cons p rest ihl =>
    obtain ⟨k, v⟩ := p
    simp only [latLngNumericFields, Bool.and_eq_true] at h
    obtain ⟨y, hy, hyy⟩ := ih (k, v) (List.mem_cons_self _ _) h.1
    obtain ⟨out, hout, hkeys, houtfix⟩ := ihl (fun p hp => ih p (List.mem_cons_of_mem _ hp)) h.2
    refine ⟨(k, y) :: out, ?_, ?_, ?_⟩
    · simp [floatifyFields, hy, hout, Except.bind, bind, pure, Except.pure]
    · simp [hkeys]
    · simp [floatifyFields, hyy, houtfix, Except.bind, bind, pure, Except.pure]

theorem floatifyList_fix {xs : List JsonValue}
    (ih : ∀ x ∈ xs, latLngNumeric x = true →
      ∃ y, floatify_latlng x = .ok y ∧ floatify_latlng y = .ok y)
    (h : latLngNumericList xs = true) :
    ∃ out, floatifyList xs = .ok out ∧ floatifyList out = .ok out := by
  induction xs with
  | nil => exact ⟨[], rfl, rfl⟩
  | cons x rest ihl =>
    simp only [latLngNumericList, Bool.and_eq_true] at h
    obtain ⟨y, hy, hyy⟩ := ih x (List.mem_cons_self _ _) h.1
    obtain ⟨out, hout, houtfix⟩ := ihl (fun z hz => ih z (List.mem_cons_of_mem _ hz)) h.2
    refine ⟨y :: out, ?_, ?_⟩
    · simp [floatifyList, hy, hout, Except.bind, bind, pure, Except.pure]
    · simp [floatifyList, hyy, houtfix, Except.bind, bind, pure, Except.pure]

theorem floatify_fix_of_numeric : ∀ v, latLngNumeric v = true →
    ∃ y, floatify_latlng v = .ok y ∧ floatify_latlng y = .ok y := by
  intro v
  induction v using jsonInduction with
  | hobj fs ih =>
    intro h
    by_cases hc : isCoordLeaf fs = true
    · simp only [latLngNumeric, hc, if_true] at h
      obtain ⟨qa, qb, hq⟩ := floatify_leaf_of_nums hc h
      exact ⟨_, hq, floatify_leaf_nums qa qb⟩
    · rw [Bool.not_eq_true] at hc
      simp only [latLngNumeric, hc, Bool.false_eq_true, if_false] at h
      obtain ⟨out, hout, hkeys, hfix⟩ := floatifyFields_fix ih h
      have hco : isCoordLeaf out = false := by
        rw [isCoordLeaf_of_keys_eq hkeys]; exact hc
      refine ⟨.obj out, ?_, ?_⟩
      · rw [floatify_obj_nonleaf hc, hout]; rfl
      · rw [floatify_obj_nonleaf hco, hfix]; rfl
  | harr xs ih =>
    intro h
    simp only [latLngNumeric] at h
    obtain ⟨out, hout, hfix⟩ := floatifyList_fix ih h
    refine ⟨.arr out, ?_, ?_⟩
    · rw [floatify_arr, hout]; rfl
    · rw [floatify_arr, hfix]; rfl
  | hstr s => exact fun _ => ⟨.str s, rfl, rfl⟩
  | hnum q => exact fun _ => ⟨.num q, rfl, rfl⟩
  | hbool b => exact fun _ => ⟨.bool b, rfl, rfl⟩
  | hnull => exact fun _ => ⟨.null, rfl, rfl⟩

/-- Claim C6: `floatify_latlng` is idempotent on any finite acyclic
JSON-like tree whose coordinate leaves are already numeric. -/
theorem c6_floatify_idempotent (x : JsonValue) (h : latLngNumeric x = true) :
    (floatify_latlng x).bind floatify_latlng = floatify_latlng x := by
  obtain ⟨y, hy, hyy⟩ := floatify_fix_of_numeric x h
  rw [hy]
  simpa [Except.bind] using hyy

/-- Witness for C6: a nested tree with an already-numeric coordinate
leaf (keys written in the other insertion order) and a sequence. -/
theorem c6_floatify_idempotent_witness :
    latLngNumeric (.obj [("pos", .obj [("lng", .num 2), ("lat", .num 1)]),
        ("tags", .arr [.str "a", .bool true])]) = true
  ∧ (floatify_latlng (.obj [("pos", .obj [("lng", .num 2), ("lat", .num 1)]),
        ("tags", .arr [.str "a", .bool true])])).bind floatify_latlng =
      floatify_latlng (.obj [("pos", .obj [("lng", .num 2), ("lat", .num 1)]),
        ("tags", .arr [.str "a", .bool true])]) :=
  ⟨rfl, c6_floatify_idempotent _ rfl⟩

theorem exceptBind_ok {α β : Type} {ma : Except PyExc α} {f : α → Except PyExc β} {b : β}
    (h : (ma >>= f) = .ok b) : ∃ a, ma = .ok a ∧ f a = .ok b := by
  cases ma with
  | error e => simp [Bind.bind, Except.bind] at h
  | ok a => exact ⟨a, rfl, by simpa [Bind.bind, Except.bind] using h⟩

theorem floatify_leaf_shape {fs : List (String × JsonValue)} {y : JsonValue}
    (hc : isCoordLeaf fs = true) (h : floatify_latlng (.obj fs) = .ok y) :
    ∃ a b, y = .obj [("lat", a), ("lng", b)] := by
  rw [floatify_obj_leaf hc] at h
  obtain ⟨la, _, h⟩ := exceptBind_ok h
  obtain ⟨lo, _, h⟩ := exceptBind_ok h
  obtain ⟨la', _, h⟩ := exceptBind_ok h
  obtain ⟨lo', _, h⟩ := exceptBind_ok h
  simp only [pure, Except.pure, Except.ok.injEq] at h
  exact ⟨la', lo', h.symm⟩

theorem shapeOkFields_of {fs out : List (String × JsonValue)}
    (ih : ∀ p ∈ fs, ∀ y, floatify_latlng p.2 = .ok y → shapeOk p.2 y = true)
    (h : floatifyFields fs = .ok out) :
    shapeOkFields fs out = true := by
  induction fs generalizing out with
  | nil =>
    simp only [floatifyFields] at h
    cases h
    rfl
  | cons p rest ihl =>
    obtain ⟨k, v⟩ := p
    simp only [floatifyFields] at h
    obtain ⟨v', hv, h⟩ := exceptBind_ok h
    obtain ⟨rest', hr, h⟩ := exceptBind_ok h
    simp only [pure, Except.pure, Except.ok.injEq] at h
    subst h
    simp only [shapeOkFields, beq_self_eq_true, Bool.true_and, Bool.and_eq_true]
    exact ⟨ih (k, v) (List.mem_cons_self _ _) v' hv,
      ihl (fun p hp => ih p (List.mem_cons_of_mem _ hp)) hr⟩

theorem shapeOkList_of {xs out : List JsonValue}
    (ih : ∀ x ∈ xs, ∀ y, floatify_latlng x = .ok y → shapeOk x y = true)
    (h : floatifyList xs = .ok out) :
    shapeOkList xs out = true := by
  induction xs generalizing out with
  | nil =>
    simp only [floatifyList] at h
    cases h
    rfl
  | cons x rest ihl =>
    simp only [floatifyList] at h
    obtain ⟨x', hx, h⟩ := exceptBind_ok h
    obtain ⟨rest', hr, h⟩ := exceptBind_ok h
    simp only [pure, Except.pure, Except.ok.injEq] at h
    subst h
    simp only [shapeOkList, Bool.and_eq_true]
    exact ⟨ih x (List.mem_cons_self _ _) x' hx,
      ihl (fun z hz => ih z (List.mem_cons_of_mem _ hz)) hr⟩

/-- Claim C7: whenever `floatify_latlng` returns a value, the output has
the shape of the input — the same keys at every non-leaf mapping node,
the same length and element order at every sequence node, scalars
unchanged — with only the values of `lat`/`lng` coordinate leaves
possibly changed. -/
theorem c7_shape_preservation : ∀ x y, floatify_latlng x = .ok y → shapeOk x y = true := by
  intro x
  induction x using jsonInduction with
  | hobj fs ih =>
    intro y h
    by_cases hc : isCoordLeaf fs = true
    · obtain ⟨a, b, rfl⟩ := floatify_leaf_shape hc h
      simp [shapeOk, hc]
    · rw [Bool.not_eq_true] at hc
      rw [floatify_obj_nonleaf hc] at h
      cases hf : floatifyFields fs with
      | error e => rw [hf] at h; simp [Except.map] at h
      | ok out =>
        rw [hf] at h
        simp only [Except.map, Except.ok.injEq] at h
        subst h
        simp only [shapeOk, hc, Bool.false_eq_true, if_false]
        exact shapeOkFields_of ih hf
  | harr xs ih =>
    intro y h
    rw [floatify_arr] at h
    cases hf : floatifyList xs with
    | error e => rw [hf] at h; simp [Except.map] at h
    | ok out =>
      rw [hf] at h
      simp only [Except.map, Except.ok.injEq] at h
      subst h
      simp only [shapeOk]
      exact shapeOkList_of ih hf
  | hstr s =>
    intro y h
    cases h
    simp [shapeOk]
  | hnum q =>
    intro y h
    cases h
    simp [shapeOk]
  | hbool b =>
    intro y h
    cases h
    simp [shapeOk]
  | hnull =>
    intro y h
    cases h
    simp [shapeOk]

/-- Witness for C7: a nested tree with a string-valued coordinate leaf
and a sequence: the output keeps every key, length and element order,
converting only the leaf values. -/
theorem c7_shape_preservation_witness :
    floatify_latlng (.obj [("a", .obj [("lat", .str "1.5"), ("lng", .str "2.5")]),
        ("b", .arr [.num 3, .str "z"])]) =
      .ok (.obj [("a", .obj [("lat", .num (mkRat 3 2)), ("lng", .num (mkRat 5 2))]),
        ("b", .arr [.num 3, .str "z"])])
  ∧ shapeOk (.obj [("a", .obj [("lat", .str "1.5"), ("lng", .str "2.5")]),
        ("b", .arr [.num 3, .str "z"])])
      (.obj [("a", .obj [("lat", .num (mkRat 3 2)), ("lng", .num (mkRat 5 2))]),
        ("b", .arr [.num 3, .str "z"])]) = true :=
  ⟨rfl, c7_shape_preservation _ _ rfl⟩

theorem sizeOf_json_pos (v : JsonValue) : 0 < sizeOf v := by
  cases v <;> simp <;> omega

theorem sizeOf_list_pos {α : Type} [SizeOf α] (l : List α) : 0 < sizeOf l := by
  cases l <;> simp <;> omega

theorem floatifyFuel_complete : ∀ n : Nat,
    (∀ v : JsonValue, sizeOf v ≤ n → floatifyFuel n v = some (floatify_latlng v))
  ∧ (∀ fs : List (String × JsonValue), sizeOf fs ≤ n →
      floatifyFieldsFuel n fs = some (floatifyFields fs))
  ∧ (∀ xs : List JsonValue, sizeOf xs ≤ n →
      floatifyListFuel n xs = some (floatifyList xs)) := by
  intro n
  induction n with
  | zero =>
    refine ⟨fun v hv => absurd hv ?_, fun fs hfs => absurd hfs ?_, fun xs hxs => absurd hxs ?_⟩
    · have := sizeOf_json_pos v; omega
    · have := sizeOf_list_pos fs; omega
    · have := sizeOf_list_pos xs; omega
  | succ n ih =>
    obtain ⟨-, F, L⟩ := ih
    have Q' : ∀ v : JsonValue, sizeOf v ≤ n + 1 →
        floatifyFuel (n + 1) v = some (floatify_latlng v) := by
      intro v hv
      cases v with
      | obj fs =>
        by_cases hc : isCoordLeaf fs = true
        · rw [floatify_obj_leaf hc]
          simp [floatifyFuel, hc]
        · rw [Bool.not_eq_true] at hc
          have hfs : sizeOf fs ≤ n := by
            have hs : sizeOf (JsonValue.obj fs) = 1 + sizeOf fs := by simp
            omega
          rw [floatify_obj_nonleaf hc]
          simp [floatifyFuel, hc, F fs hfs]
      | arr xs =>
        have hxs : sizeOf xs ≤ n := by
          have hs : sizeOf (JsonValue.arr xs) = 1 + sizeOf xs := by simp
          omega
        rw [floatify_arr]
        simp [floatifyFuel, L xs hxs]
      | str s => simp [floatifyFuel, floatify_latlng]
      | num q => simp [floatifyFuel, floatify_latlng]
      | bool b => simp [floatifyFuel, floatify_latlng]
      | null => simp [floatifyFuel, floatify_latlng]
    refine ⟨Q', ?_, ?_⟩
    · intro fs hfs
      induction fs with
      | nil => simp [floatifyFieldsFuel, floatifyFields]
      | cons p rest ihf =>
        obtain ⟨k, v⟩ := p
        have hv : sizeOf v ≤ n + 1 := by
          have hs : sizeOf ((k, v) :: rest) = 1 + (1 + sizeOf k + sizeOf v) + sizeOf rest := by
            simp
          omega
        have hr : sizeOf rest ≤ n + 1 := by
          have hs : sizeOf ((k, v) :: rest) = 1 + (1 + sizeOf k + sizeOf v) + sizeOf rest := by
            simp
          have := sizeOf_json_pos v
          omega
        simp only [floatifyFieldsFuel, Q' v hv, ihf hr]
        cases hfv : floatify_latlng v with
        | error e => simp [floatifyFields, hfv, Except.bind, bind]
        | ok v' =>
          cases hfr : floatifyFields rest with
          | error e => simp [floatifyFields, hfv, hfr, Except.bind, bind]
          | ok rest' => simp [floatifyFields, hfv, hfr, Except.bind, bind, pure, Except.pure]
    · intro xs hxs
      induction xs with
      | nil => simp [floatifyListFuel, floatifyList]
      | cons x rest ihl =>
        have hx : sizeOf x ≤ n + 1 := by
          have hs : sizeOf (x :: rest) = 1 + sizeOf x + sizeOf rest := by simp
          have := sizeOf_list_pos rest
          omega
        have hr : sizeOf rest ≤ n + 1 := by
          have hs : sizeOf (x :: rest) = 1 + sizeOf x + sizeOf rest := by simp
          have := sizeOf_json_pos x
          omega
        simp only [floatifyListFuel, Q' x hx, ihl hr]
        cases hfx : floatify_latlng x with
        | error e => simp [floatifyList, hfx, Except.bind, bind]
        | ok x' =>
          cases hfr : floatifyList rest with
          | error e => simp [floatifyList, hfx, hfr, Except.bind, bind]
          | ok rest' => simp [floatifyList, hfx, hfr, Except.bind, bind, pure, Except.pure]

/-- Claim C9: `floatify_latlng` is a total pure function of the input
tree — the shallow embedding is a Lean function, so it has no side
effects and cannot mutate its argument — and its recursion terminates on
every finite acyclic tree: fuel equal to the size of the tree already
suffices for the fuel-bounded evaluator to deliver its value. -/
theorem c9_floatify_terminates (v : JsonValue) :
    floatifyFuel (sizeOf v) v = some (floatify_latlng v) :=
  (floatifyFuel_complete (sizeOf v)).1 v le_rfl

theorem natDigitsAux_sound : ∀ fuel n, n ≤ fuel →
    Nat.ofDigits 10 (natDigitsAux fuel n) = n := by
  intro fuel
  induction fuel with
  | zero =>
    intro n hn
    have : n = 0 := by omega
    subst this
    rfl
  | succ fuel ih =>
    intro n hn
    by_cases h0 : n = 0
    · subst h0; simp [natDigitsAux]
    · simp only [natDigitsAux, h0, if_false]
      rw [Nat.ofDigits_cons, ih (n / 10) ?_]
      · omega
      · have : n / 10 < n := Nat.div_lt_self (Nat.pos_of_ne_zero h0) (by omega)
        omega

theorem natDigitsAux_lt : ∀ fuel n d, d ∈ natDigitsAux fuel n → d < 10 := by
  intro fuel
  induction fuel with
  | zero => intro n d hd; simp [natDigitsAux] at hd
  | succ fuel ih =>
    intro n d hd
    by_cases h0 : n = 0
    · subst h0; simp [natDigitsAux] at hd
    · simp only [natDigitsAux, h0, if_false, List.mem_cons] at hd
      rcases hd with rfl | hd
      · exact Nat.mod_lt _ (by omega)
      · exact ih _ _ hd

theorem charVal_digitChar {d : Nat} (h : d < 10) : charVal (digitChar d) = d := by
  interval_cases d <;> rfl

theorem isDigitChar_digitChar {d : Nat} (h : d < 10) : isDigitChar (digitChar d) = true := by
  interval_cases d <;> rfl

theorem natDigitChars_ne_nil (n : Nat) : natDigitChars n ≠ [] := by
  unfold natDigitChars
  by_cases h : n = 0
  · simp [h]
  · simp only [h, if_false]
    intro hc
    rw [List.reverse_eq_nil_iff, List.map_eq_nil_iff] at hc
    have := natDigitsAux_sound n n le_rfl
    rw [natDigitsLE] at hc
    rw [hc] at this
    simp [Nat.ofDigits] at this
    exact h this.symm

theorem natDigitChars_all_digit {n : Nat} : ∀ c ∈ natDigitChars n, isDigitChar c = true := by
  intro c hc
  unfold natDigitChars at hc
  by_cases h : n = 0
  · simp [h] at hc
    subst hc
    rfl
  · simp only [h, if_false, List.mem_reverse, List.mem_map] at hc
    obtain ⟨d, hd, rfl⟩ := hc
    exact isDigitChar_digitChar (natDigitsAux_lt n n d hd)

theorem natOfBE_natDigitChars (n : Nat) : natOfBE (natDigitChars n) = n := by
  unfold natOfBE natDigitChars
  by_cases h : n = 0
  · subst h
    simp
    rfl
  · simp only [h, if_false, List.map_reverse, List.reverse_reverse, List.map_map]
    have hmap : (natDigitsLE n).map (charVal ∘ digitChar) = natDigitsLE n := by
      have h1 : (natDigitsLE n).map (charVal ∘ digitChar) = (natDigitsLE n).map id :=
        List.map_congr_left (fun d hd => charVal_digitChar (natDigitsAux_lt n n d hd))
      rw [h1, List.map_id]
    rw [hmap]
    exact natDigitsAux_sound n n le_rfl

theorem natOfBE_append (a b : List Char) :
    natOfBE (a ++ b) = natOfBE a * 10 ^ b.length + natOfBE b := by
  unfold natOfBE
  rw [List.map_append, List.reverse_append, Nat.ofDigits_append]
  simp [Nat.mul_comm, Nat.add_comm]

theorem natOfBE_replicate_zero (z : Nat) : natOfBE (List.replicate z '0') = 0 := by
  unfold natOfBE
  induction z with
  | zero => rfl
  | succ z ih =>
    rw [List.replicate_succ, List.map_cons, List.reverse_cons, Nat.ofDigits_append]
    simp only [List.map_replicate, List.reverse_replicate] at ih ⊢
    rw [ih]
    simp [Nat.ofDigits, charVal]

theorem isDigitChar_ne {c : Char} (h : isDigitChar c = true) :
    c ≠ '+' ∧ c ≠ '-' ∧ c ≠ '.' := by
  refine ⟨fun hc => ?_, fun hc => ?_, fun hc => ?_⟩ <;> subst hc <;>
    exact absurd h (by decide)

theorem parseSign_cons {c : Char} {cs : List Char} (h1 : c ≠ '+') (h2 : c ≠ '-') :
    parseSign (c :: cs) = (false, c :: cs) := by
  unfold parseSign
  split
  · rename_i rest heq
    injection heq with ha hb
    exact absurd ha h1
  · rename_i rest heq
    injection heq with ha hb
    exact absurd ha h2
  · rfl

theorem takeWhile_all {p : Char → Bool} : ∀ l : List Char, (∀ c ∈ l, p c = true) →
    l.takeWhile p = l := by
  intro l h
  induction l with
  | nil => rfl
  | cons c rest ih =>
    rw [List.takeWhile_cons_of_pos (h c (List.mem_cons_self _ _))]
    rw [ih (fun z hz => h z (List.mem_cons_of_mem _ hz))]

theorem dropWhile_all {p : Char → Bool} : ∀ l : List Char, (∀ c ∈ l, p c = true) →
    l.dropWhile p = [] := by
  intro l h
  induction l with
  | nil => rfl
  | cons c rest ih =>
    rw [List.dropWhile_cons_of_pos (h c (List.mem_cons_self _ _))]
    exact ih (fun z hz => h z (List.mem_cons_of_mem _ hz))

theorem takeWhile_append_stop {p : Char → Bool} {d : Char} (hd : p d = false) :
    ∀ (a b : List Char), (∀ c ∈ a, p c = true) →
      (a ++ d :: b).takeWhile p = a ∧ (a ++ d :: b).dropWhile p = d :: b := by
  intro a
  induction a with
  | nil =>
    intro b _
    constructor
    · simp [List.takeWhile_cons_of_neg (by simp [hd] : ¬ p d = true)]
    · simp [List.dropWhile_cons_of_neg (by simp [hd] : ¬ p d = true)]
  | cons c rest ih =>
    intro b hall
    have hc := hall c (List.mem_cons_self _ _)
    obtain ⟨ht, hdrop⟩ := ih b (fun z hz => hall z (List.mem_cons_of_mem _ hz))
    constructor
    · rw [List.cons_append, List.takeWhile_cons_of_pos hc, ht]
    · rw [List.cons_append, List.dropWhile_cons_of_pos hc, hdrop]

theorem isEmpty_false_of_ne_nil {α : Type} {l : List α} (h : l ≠ []) : l.isEmpty = false := by
  cases l with
  | nil => exact absurd rfl h
  | cons a rest => rfl

theorem all_digit_replicate_zero (z : Nat) :
    (List.replicate z '0').all isDigitChar = true := by
  rw [List.all_eq_true]
  intro c hc
  rw [List.mem_replicate] at hc
  rw [hc.2]
  rfl

theorem natOfBE_rep_append (z : Nat) (l : List Char) :
    natOfBE (List.replicate z '0' ++ l) = natOfBE l := by
  rw [natOfBE_append, natOfBE_replicate_zero]
  simp

theorem not_dot_of_digit {c : Char} (h : isDigitChar c = true) :
    (decide (c ≠ '.')) = true := decide_eq_true (isDigitChar_ne h).2.2

theorem ratOfFixedCore_body (neg : Bool) (coeff : Nat) (exp : Int) :
    ratOfFixedCore neg (formatFBody coeff exp) = some (decValue ⟨neg, coeff, exp⟩) := by
  have hne : natDigitChars coeff ≠ [] := natDigitChars_ne_nil coeff
  have hdig : ∀ c ∈ natDigitChars coeff, isDigitChar c = true := natDigitChars_all_digit
  have hval : natOfBE (natDigitChars coeff) = coeff := natOfBE_natDigitChars coeff
  have hL1 : 1 ≤ (natDigitChars coeff).length := List.length_pos.mpr hne
  by_cases h0 : exp + ((natDigitChars coeff).length : Int) ≤ 0
  · -- dotplace ≤ 0: "0." ++ zeros ++ digits
    have hbody : formatFBody coeff exp =
        '0' :: '.' :: (List.replicate (-(exp + ((natDigitChars coeff).length : Int))).toNat '0'
          ++ natDigitChars coeff) := by
      simp only [formatFBody]
      rw [if_pos h0]
    rw [hbody]
    simp only [ratOfFixedCore]
    rw [List.takeWhile_cons_of_pos (by decide), List.takeWhile_cons_of_neg (by decide),
      List.dropWhile_cons_of_pos (by decide), List.dropWhile_cons_of_neg (by decide)]
    have hfpne : List.replicate (-(exp + ((natDigitChars coeff).length : Int))).toNat '0'
        ++ natDigitChars coeff ≠ [] := by
      intro hc
      rw [List.append_eq_nil] at hc
      exact hne hc.2
    have hfpall : (List.replicate (-(exp + ((natDigitChars coeff).length : Int))).toNat '0'
        ++ natDigitChars coeff).all isDigitChar = true := by
      rw [List.all_append, Bool.and_eq_true]
      exact ⟨all_digit_replicate_zero _, List.all_eq_true.mpr hdig⟩
    simp only [isEmpty_false_of_ne_nil hfpne, hfpall]
    have hnum : natOfBE ['0'] *
        10 ^ (List.replicate (-(exp + ((natDigitChars coeff).length : Int))).toNat '0'
          ++ natDigitChars coeff).length
        + natOfBE (List.replicate (-(exp + ((natDigitChars coeff).length : Int))).toNat '0'
          ++ natDigitChars coeff) = coeff := by
      rw [natOfBE_rep_append, hval]
      have : natOfBE ['0'] = 0 := rfl
      rw [this]
      omega
    have hlen : (List.replicate (-(exp + ((natDigitChars coeff).length : Int))).toNat '0'
        ++ natDigitChars coeff).length = (-exp).toNat := by
      rw [List.length_append, List.length_replicate]
      omega
    simp only [hnum, hlen]
    have hdv : decValue ⟨neg, coeff, exp⟩ =
        mkRat (if neg then -(coeff : Int) else (coeff : Int)) (10 ^ (-exp).toNat) := by
      simp only [decValue]
      rw [if_neg (by omega)]
    have h0d : isDigitChar '0' = true := rfl
    have hz : natOfBE ['0'] = 0 := rfl
    rw [hdv]
    simp [h0d, hz]
    rw [natOfBE_rep_append, hval]
  · by_cases h1 : ((natDigitChars coeff).length : Int) ≤ exp + ((natDigitChars coeff).length : Int)
    · -- dotplace past the digits: digits plus trailing zeros, no dot
      have hbody : formatFBody coeff exp = natDigitChars coeff ++
          List.replicate ((exp + ((natDigitChars coeff).length : Int))
            - ((natDigitChars coeff).length : Int)).toNat '0' := by
        simp only [formatFBody]
        rw [if_neg h0, if_pos h1]
      rw [hbody]
      simp only [ratOfFixedCore]
      have hallb : ∀ c ∈ natDigitChars coeff ++
          List.replicate ((exp + ((natDigitChars coeff).length : Int))
            - ((natDigitChars coeff).length : Int)).toNat '0',
          (fun c => decide (c ≠ '.')) c = true := by
        intro c hc
        rw [List.mem_append] at hc
        rcases hc with hc | hc
        · exact not_dot_of_digit (hdig c hc)
        · rw [List.mem_replicate] at hc
          rw [hc.2]
          decide
      rw [takeWhile_all _ hallb, dropWhile_all _ hallb]
      have hbne : natDigitChars coeff ++
          List.replicate ((exp + ((natDigitChars coeff).length : Int))
            - ((natDigitChars coeff).length : Int)).toNat '0' ≠ [] := by
        intro hc
        rw [List.append_eq_nil] at hc
        exact hne hc.1
      have hball : (natDigitChars coeff ++
          List.replicate ((exp + ((natDigitChars coeff).length : Int))
            - ((natDigitChars coeff).length : Int)).toNat '0').all isDigitChar = true := by
        rw [List.all_append, Bool.and_eq_true]
        exact ⟨List.all_eq_true.mpr hdig, all_digit_replicate_zero _⟩
      simp only [isEmpty_false_of_ne_nil hbne, hball, Bool.not_false, Bool.and_self, if_true,
        Bool.and_true]
      have hnum : natOfBE (natDigitChars coeff ++
          List.replicate ((exp + ((natDigitChars coeff).length : Int))
            - ((natDigitChars coeff).length : Int)).toNat '0') = coeff * 10 ^ exp.toNat := by
        rw [natOfBE_append, natOfBE_replicate_zero, List.length_replicate, hval]
        have hz : ((exp + ((natDigitChars coeff).length : Int))
            - ((natDigitChars coeff).length : Int)).toNat = exp.toNat := by omega
        rw [hz, Nat.add_zero]
      rw [hnum]
      have hdv : decValue ⟨neg, coeff, exp⟩ =
          mkRat ((if neg then -(coeff : Int) else (coeff : Int)) * 10 ^ exp.toNat) 1 := by
        simp only [decValue]
        rw [if_pos (by omega : (0 : Int) ≤ exp)]
      rw [hdv]
      cases neg <;> simp
    · -- dot inside the digits
      have hbody : formatFBody coeff exp =
          (natDigitChars coeff).take (exp + ((natDigitChars coeff).length : Int)).toNat ++
            '.' :: (natDigitChars coeff).drop (exp + ((natDigitChars coeff).length : Int)).toNat := by
        simp only [formatFBody]
        rw [if_neg h0, if_neg h1]
      rw [hbody]
      simp only [ratOfFixedCore]
      have htall : ∀ c ∈ (natDigitChars coeff).take
          (exp + ((natDigitChars coeff).length : Int)).toNat,
          (fun c => decide (c ≠ '.')) c = true :=
        fun c hc => not_dot_of_digit (hdig c (List.take_subset _ _ hc))
      obtain ⟨htw, hdw⟩ := takeWhile_append_stop
        (show (fun c => decide (c ≠ '.')) '.' = false from by decide)
        ((natDigitChars coeff).take (exp + ((natDigitChars coeff).length : Int)).toNat)
        ((natDigitChars coeff).drop (exp + ((natDigitChars coeff).length : Int)).toNat) htall
      rw [htw, hdw]
      have htne : (natDigitChars coeff).take
          (exp + ((natDigitChars coeff).length : Int)).toNat ≠ [] := by
        have : ((natDigitChars coeff).take
            (exp + ((natDigitChars coeff).length : Int)).toNat).length =
            min (exp + ((natDigitChars coeff).length : Int)).toNat
              (natDigitChars coeff).length := List.length_take _ _
        intro hc
        rw [hc] at this
        simp at this
        omega
      have hdne : (natDigitChars coeff).drop
          (exp + ((natDigitChars coeff).length : Int)).toNat ≠ [] := by
        have : ((natDigitChars coeff).drop
            (exp + ((natDigitChars coeff).length : Int)).toNat).length =
            (natDigitChars coeff).length -
              (exp + ((natDigitChars coeff).length : Int)).toNat := List.length_drop _ _
        intro hc
        rw [hc] at this
        simp at this
        omega
      have htd : ((natDigitChars coeff).take
          (exp + ((natDigitChars coeff).length : Int)).toNat).all isDigitChar = true :=
        List.all_eq_true.mpr (fun c hc => hdig c (List.take_subset _ _ hc))
      have hdd : ((natDigitChars coeff).drop
          (exp + ((natDigitChars coeff).length : Int)).toNat).all isDigitChar = true :=
        List.all_eq_true.mpr (fun c hc => hdig c (List.drop_subset _ _ hc))
      simp only [isEmpty_false_of_ne_nil htne, isEmpty_false_of_ne_nil hdne, htd, hdd,
        Bool.not_false, Bool.and_self, Bool.and_true, if_true]
      have hnum : natOfBE ((natDigitChars coeff).take
            (exp + ((natDigitChars coeff).length : Int)).toNat) *
          10 ^ ((natDigitChars coeff).drop
            (exp + ((natDigitChars coeff).length : Int)).toNat).length +
          natOfBE ((natDigitChars coeff).drop
            (exp + ((natDigitChars coeff).length : Int)).toNat) = coeff := by
        rw [← natOfBE_append, List.take_append_drop, hval]
      have hlen : ((natDigitChars coeff).drop
          (exp + ((natDigitChars coeff).length : Int)).toNat).length = (-exp).toNat := by
        rw [List.length_drop]
        omega
      rw [hlen] at hnum ⊢
      rw [hnum]
      have hdv : decValue ⟨neg, coeff, exp⟩ =
          mkRat (if neg then -(coeff : Int) else (coeff : Int)) (10 ^ (-exp).toNat) := by
        simp only [decValue]
        rw [if_neg (by omega)]
      rw [hdv]

theorem formatFBody_head (coeff : Nat) (exp : Int) :
    ∃ c rest, formatFBody coeff exp = c :: rest ∧ isDigitChar c = true := by
  have hne := natDigitChars_ne_nil coeff
  obtain ⟨d0, ds', hds⟩ := List.exists_cons_of_ne_nil hne
  have hd0 : isDigitChar d0 = true :=
    natDigitChars_all_digit d0 (by rw [hds]; exact List.mem_cons_self _ _)
  simp only [formatFBody]
  by_cases h0 : exp + ((natDigitChars coeff).length : Int) ≤ 0
  · rw [if_pos h0]
    exact ⟨'0', _, rfl, rfl⟩
  · by_cases h1 : ((natDigitChars coeff).length : Int) ≤ exp + ((natDigitChars coeff).length : Int)
    · rw [if_neg h0, if_pos h1, hds, List.cons_append]
      exact ⟨d0, _, rfl, hd0⟩
    · rw [if_neg h0, if_neg h1]
      have ht : (exp + ((natDigitChars coeff).length : Int)).toNat =
          ((exp + ((natDigitChars coeff).length : Int)).toNat - 1) + 1 := by omega
      rw [ht, hds, List.take_succ_cons, List.cons_append]
      exact ⟨d0, _, rfl, hd0⟩

theorem ratOfFixedChars_formatFChars (d : PyDecimal) :
    ratOfFixedChars (formatFChars d) = some (decValue d) := by
  obtain ⟨neg, coeff, exp⟩ := d
  obtain ⟨c, rest, hrep, hcdig⟩ := formatFBody_head coeff exp
  cases neg with
  | true =>
    show ratOfFixedChars ('-' :: formatFBody coeff exp) = _
    simp only [ratOfFixedChars, parseSign]
    exact ratOfFixedCore_body true coeff exp
  | false =>
    show ratOfFixedChars (formatFBody coeff exp) = _
    simp only [ratOfFixedChars]
    rw [hrep, parseSign_cons (isDigitChar_ne hcdig).1 (isDigitChar_ne hcdig).2.1, ← hrep]
    exact ratOfFixedCore_body false coeff exp

theorem formatFBody_kinds (coeff : Nat) (exp : Int) :
    ∀ c ∈ formatFBody coeff exp, isDigitChar c = true ∨ c = '.' := by
  intro z hz
  have hdig := natDigitChars_all_digit (n := coeff)
  simp only [formatFBody] at hz
  by_cases h0 : exp + ((natDigitChars coeff).length : Int) ≤ 0
  · rw [if_pos h0] at hz
    simp only [List.mem_cons, List.mem_append, List.mem_replicate] at hz
    rcases hz with rfl | rfl | ⟨-, rfl⟩ | hz
    · exact Or.inl rfl
    · exact Or.inr rfl
    · exact Or.inl rfl
    · exact Or.inl (hdig z hz)
  · by_cases h1 : ((natDigitChars coeff).length : Int) ≤ exp + ((natDigitChars coeff).length : Int)
    · rw [if_neg h0, if_pos h1] at hz
      simp only [List.mem_append, List.mem_replicate] at hz
      rcases hz with hz | ⟨-, rfl⟩
      · exact Or.inl (hdig z hz)
      · exact Or.inl rfl
    · rw [if_neg h0, if_neg h1] at hz
      simp only [List.mem_append, List.mem_cons] at hz
      rcases hz with hz | rfl | hz
      · exact Or.inl (hdig z (List.take_subset _ _ hz))
      · exact Or.inr rfl
      · exact Or.inl (hdig z (List.drop_subset _ _ hz))

theorem formatFChars_kinds (d : PyDecimal) :
    ∀ c ∈ formatFChars d, isDigitChar c = true ∨ c = '-' ∨ c = '.' := by
  intro z hz
  unfold formatFChars at hz
  by_cases hn : d.neg = true
  · rw [if_pos hn] at hz
    rcases List.mem_cons.mp hz with rfl | hz
    · exact Or.inr (Or.inl rfl)
    · rcases formatFBody_kinds d.coeff d.exp z hz with h | h
      · exact Or.inl h
      · exact Or.inr (Or.inr h)
  · rw [if_neg hn] at hz
    rcases formatFBody_kinds d.coeff d.exp z hz with h | h
    · exact Or.inl h
    · exact Or.inr (Or.inr h)

/-- Claim C5: `reverse_geocode_async` formats the two coordinates into
the single query string `"{lat:f},{lng:f}"` and delegates it to
`geocode_async`; the fixed-point rendering uses only digits, minus sign,
decimal point and the comma (no exponent notation), and parsing the
rendered string back yields exactly the decimal value of each input —
no precision loss or gain.  The spec's example renders as
`"51.5104,-0.1021"`. -/
theorem c5_reverse_geocode_query (lat lng : PyDecimal) (c : Client)
    (params : List (String × JsonValue)) (resp : HttpResponse) :
    reverse_geocode_async c lat lng params resp =
      geocode_async c (.str (query_for_reverse_geocoding lat lng)) params resp
  ∧ query_for_reverse_geocoding lat lng = formatF lat ++ "," ++ formatF lng
  ∧ ratOfFixed (formatF lat) = some (decValue lat)
  ∧ ratOfFixed (formatF lng) = some (decValue lng)
  ∧ (query_for_reverse_geocoding lat lng).data.all
      (fun ch => isDigitChar ch || ch == '-' || ch == '.' || ch == ',') = true
  ∧ query_for_reverse_geocoding ⟨false, 515104, -4⟩ ⟨true, 1021, -4⟩ = "51.5104,-0.1021" := by
  refine ⟨rfl, ?_, ratOfFixedChars_formatFChars lat, ratOfFixedChars_formatFChars lng, ?_, rfl⟩
  · exact congrArg String.mk (by simp)
  · rw [List.all_eq_true]
    intro z hz
    simp only [query_for_reverse_geocoding, List.mem_append, List.mem_cons] at hz
    have kinds : isDigitChar z = true ∨ z = '-' ∨ z = '.' ∨ z = ',' := by
      rcases hz with hz | rfl | hz
      · rcases formatFChars_kinds lat z hz with h | h | h
        · exact Or.inl h
        · exact Or.inr (Or.inl h)
        · exact Or.inr (Or.inr (Or.inl h))
      · exact Or.inr (Or.inr (Or.inr rfl))
      · rcases formatFChars_kinds lng z hz with h | h | h
        · exact Or.inl h
        · exact Or.inr (Or.inl h)
        · exact Or.inr (Or.inr (Or.inl h))
    rcases kinds with h | rfl | rfl | rfl
    · simp [h]
    · simp
    · simp
    · simp
